import Mathlib

/-!
# tscontrolmitm: framing, streaming transcoder, sealed codec and identity store

A shallow embedding of `mappoll.go`, `legacy.go` and `state.go`.

* Byte streams are lists of bytes; an `io.Reader` is the list of bytes still to
  come, followed by a clean close.
* An `io.Writer` is the list of bytes written so far together with the number of
  further `Write` calls that will succeed.
* The libraries the program calls (`encoding/json`, `zstd`, the NaCl box of
  `key.MachinePrivate`, the textual form of keys) are parameters.
* The state file is the content of one path: absent, or a list of bytes.
-/

namespace TsControlMitm

/-! ## Bytes, errors, readers and writers -/

abbrev Byte := Fin 256

/-- The error values the program distinguishes: `io.EOF`, `io.ErrUnexpectedEOF`,
and every other error, identified by a number. -/
inductive Error where
  | EOF
  | ErrUnexpectedEOF
  | other (code : Nat)
  deriving DecidableEq, Repr

deriving instance DecidableEq for Except

/-- An `io.Reader` over a finite stream: the bytes not yet consumed. When they
run out the reader reports `io.EOF`. -/
abbrev Reader := List Byte

/-- Go `io.ReadFull(r, buf)` with `len(buf) = n`: exactly `n` bytes, or
`io.EOF` when no byte could be read, or `io.ErrUnexpectedEOF` when the stream
ended after some but not all bytes. With `n = 0` nothing is read. -/
def readFull (r : Reader) (n : Nat) : Except Error (List Byte) × Reader :=
  if n ≤ r.length then (.ok (r.take n), r.drop n)
  else if r.length = 0 then (.error .EOF, [])
  else (.error .ErrUnexpectedEOF, [])

/-- An `io.Writer`: `buf` holds everything written so far; `failAfter = some k`
means the next `k` calls of `Write` succeed and every later one fails;
`none` means `Write` never fails. -/
structure Writer where
  buf : List Byte
  failAfter : Option Nat
  deriving DecidableEq, Repr

/-- The error a failing `Write` returns. -/
def writeErr : Error := .other 1

/-- One call of `w.Write(data)`. -/
def Writer.write (w : Writer) (data : List Byte) : Except Error Unit × Writer :=
  match w.failAfter with
  | none => (.ok (), { w with buf := w.buf ++ data })
  | some 0 => (.error writeErr, w)
  | some (k + 1) => (.ok (), { buf := w.buf ++ data, failAfter := some k })

/-- Go `uint32(n)` for a non-negative `int`. -/
def uint32 (n : Nat) : Nat := n % 2 ^ 32

/-- Go `byte(v)`. -/
def toByte (v : Nat) : Byte := ⟨v % 256, Nat.mod_lt _ (by decide)⟩

/-- Go `binary.LittleEndian.PutUint32(lenBuf[:], v)`: the four bytes stored. -/
def putUint32 (v : Nat) : List Byte :=
  [toByte v, toByte (v >>> 8), toByte (v >>> 16), toByte (v >>> 24)]

/-- Go `binary.LittleEndian.Uint32(lenBuf[:])` on a four-byte buffer. -/
def getUint32 (b : List Byte) : Nat :=
  match b with
  | [b0, b1, b2, b3] => b0.val ||| (b1.val <<< 8) ||| (b2.val <<< 16) ||| (b3.val <<< 24)
  | _ => 0

/-! ## `mappoll.go`: length-value framing -/

/-- The function `readLVBytes` of `mappoll.go`. -/
def readLVBytes (r : Reader) : Except Error (List Byte) × Reader :=
  match readFull r 4 with
  | (.error err, r1) => (.error err, r1)
  | (.ok lenBuf, r1) =>
    let respLen := getUint32 lenBuf
    if respLen > 1 <<< 20 then
      (.error .ErrUnexpectedEOF, r1)
    else
      match readFull r1 respLen with
      | (.error err, r2) => (.error err, r2)
      | (.ok respData, r2) => (.ok respData, r2)

/-- The function `writeLVBytes` of `mappoll.go`. -/
def writeLVBytes (w : Writer) (respData : List Byte) : Except Error Unit × Writer :=
  let lenBuf := putUint32 (uint32 respData.length)
  match w.write lenBuf with
  | (.error err, w1) => (.error err, w1)
  | (.ok _, w1) => w1.write respData

/-- The bytes `writeLVBytes` puts on a writer that accepts them. -/
def frame (respData : List Byte) : List Byte :=
  putUint32 (uint32 respData.length) ++ respData

/-! ## `mappoll.go`: map responses -/

/-- The type `tailcfg.MapResponse`: the field `ControlDialPlan` (a pointer, so
possibly nil) and, in `others`, every other field. -/
structure MapResponse (D R : Type) where
  ControlDialPlan : Option D
  others : R
  deriving DecidableEq, Repr

/-- The library calls made on map responses: `json.Marshal`, `json.Unmarshal`,
`zstdEncoder.EncodeAll` and `zstdDecoder.DecodeAll`. -/
structure Libs (D R : Type) where
  jsonMarshal : MapResponse D R → Except Error (List Byte)
  jsonUnmarshal : List Byte → Except Error (MapResponse D R)
  zstdEncodeAll : List Byte → List Byte
  zstdDecodeAll : List Byte → Except Error (List Byte)

section Transcoder

variable {D R : Type} (L : Libs D R)

/-- The function `unmarshalMapResponse` of `mappoll.go`. -/
def unmarshalMapResponse (respData : List Byte) (compress : Bool) :
    Except Error (MapResponse D R) :=
  if compress then
    match L.zstdDecodeAll respData with
    | .error err => .error err
    | .ok dec => L.jsonUnmarshal dec
  else
    L.jsonUnmarshal respData

/-- The function `readMapResponse` of `mappoll.go`. -/
def readMapResponse (r : Reader) (compress : Bool) :
    Except Error (MapResponse D R) × Reader :=
  match readLVBytes r with
  | (.error err, r1) => (.error err, r1)
  | (.ok respData, r1) => (unmarshalMapResponse L respData compress, r1)

/-- The function `marshalMapResponse` of `mappoll.go`. -/
def marshalMapResponse (resp : MapResponse D R) (compress : Bool) : Except Error (List Byte) :=
  match L.jsonMarshal resp with
  | .error err => .error err
  | .ok respJSON =>
    if compress then .ok (L.zstdEncodeAll respJSON) else .ok respJSON

/-- The function `writeMapResponse` of `mappoll.go`. -/
def writeMapResponse (w : Writer) (resp : MapResponse D R) (compress : Bool) :
    Except Error Unit × Writer :=
  match marshalMapResponse L resp compress with
  | .error err => (.error err, w)
  | .ok respData => writeLVBytes w respData

end Transcoder

/-- What `processMapPoll` does to the outside, in order. -/
inductive Event where
  /-- One call of `readMapResponse` on the upstream source. -/
  | read
  /-- One call of `writeMapResponse` on the downstream writer that returned no error. -/
  | wrote
  /-- One call of `dst.(http.Flusher).Flush()`. -/
  | flush
  /-- The call `logVal(req, "req", logf)`. -/
  | logReq (val : List Byte)
  /-- The call `logVal(dump, "resp", logf)`. -/
  | logResp (dump : List Byte)
  /-- The call `logf("readMapResponse: %v", err)`. -/
  | logReadErr (err : Error)
  /-- The call `logf("writeMapResponse: %v", err)`. -/
  | logWriteErr (err : Error)
  deriving DecidableEq, Repr

/-- The outcome of `processMapPoll`: the readers and writers as it leaves them
and what it did, in order. -/
structure PollResult where
  src : Reader
  dst : Writer
  trace : List Event
  deriving DecidableEq, Repr

/-- The bytes of the literal `"Compress":"zstd"` (quotes included). -/
def compressMarker : List Byte :=
  [0x22, 0x43, 0x6f, 0x6d, 0x70, 0x72, 0x65, 0x73, 0x73, 0x22, 0x3a,
   0x22, 0x7a, 0x73, 0x74, 0x64, 0x22]

/-- Go `bytes.Contains(b, subslice)`. -/
def bytesContains (b subslice : List Byte) : Bool := decide (subslice <:+: b)

section Transcoder

variable {D R : Type} (L : Libs D R)

/-- The block `if *dumpMapPolls { dump, _ := marshalMapResponse(resp, false);
logVal(dump, "resp", logf) }` of `processMapPoll`; a failed marshal leaves
`dump` nil. -/
def dumpResp (dumpMapPolls : Bool) (resp : MapResponse D R) : List Event :=
  if dumpMapPolls then
    match marshalMapResponse L resp false with
    | .ok dump => [.logResp dump]
    | .error _ => [.logResp []]
  else []

/-- The `for` loop of `processMapPoll`. Each turn that does not return consumes
at least the four bytes of a length, so the loop ends on every finite stream. -/
def mapPollLoop (dumpMapPolls compress : Bool) (src : Reader) (dst : Writer) : PollResult :=
  match h : readMapResponse L src compress with
  | (.error err, src1) =>
    if err = .EOF then
      ⟨src1, dst, [.read]⟩
    else
      ⟨src1, dst, [.read, .logReadErr err]⟩
  | (.ok resp, src1) =>
    -- Clear out upstream dial plan, it's irrelevant as we mitm.
    let resp : MapResponse D R := { resp with ControlDialPlan := none }
    let dumped := dumpResp L dumpMapPolls resp
    match writeMapResponse L dst resp compress with
    | (.error err, dst1) => ⟨src1, dst1, [.read] ++ dumped ++ [.logWriteErr err]⟩
    | (.ok _, dst1) =>
      let rest := mapPollLoop dumpMapPolls compress src1 dst1
      { rest with trace := [.read] ++ dumped ++ [.wrote, .flush] ++ rest.trace }
termination_by src.length
decreasing_by
  unfold readMapResponse readLVBytes readFull at h
  split at h
  · simp at h
  · rename_i respData r0 hr
    simp only [Prod.mk.injEq] at h
    obtain ⟨_, h2⟩ := h
    subst h2
    split at hr
    · simp at hr
    · rename_i lenBuf r1 h4
      simp only at hr
      split at h4
      · simp only [Prod.mk.injEq, Except.ok.injEq] at h4
        obtain ⟨_, h4r⟩ := h4
        subst h4r
        split at hr
        · simp at hr
        · split at hr
          · simp at hr
          · rename_i d r2 hp
            simp only [Prod.mk.injEq] at hr
            obtain ⟨_, hr2⟩ := hr
            subst hr2
            split at hp
            · simp only [Prod.mk.injEq] at hp
              obtain ⟨_, hp2⟩ := hp
              subst hp2
              simp only [List.length_drop]
              omega
            · split at hp <;> simp at hp
      · split at h4 <;> simp at h4

/-- The function `processMapPoll` of `mappoll.go`; `dumpMapPolls` is the flag
`-dump-mappolls`. -/
def processMapPoll (dumpMapPolls : Bool) (req : List Byte) (src : Reader) (dst : Writer) :
    PollResult :=
  let logged : List Event := if dumpMapPolls then [.logReq req] else []
  -- eh, good enough
  let compress := bytesContains req compressMarker
  let rest := mapPollLoop L dumpMapPolls compress src dst
  { rest with trace := logged ++ rest.trace }

end Transcoder

/-! ## `legacy.go`: the sealed codec -/

/-- The NaCl box of `key.MachinePrivate`: `priv.Public()`, `priv.SealTo(pub,
data)` with the random nonce it draws made explicit, and `priv.OpenFrom(pub,
data)`, which reports failure by `none`. -/
structure Box (Priv Pub Nonce : Type) where
  pubOf : Priv → Pub
  sealTo : Priv → Pub → Nonce → List Byte → List Byte
  openFrom : Priv → Pub → List Byte → Option (List Byte)

/-- The error `fmt.Errorf("failed to decrypt")`. -/
def decryptErr : Error := .other 3

section Legacy

variable {D R Priv Pub Nonce : Type} (L : Libs D R) (B : Box Priv Pub Nonce)

/-- The function `readLegacyMapResponse` of `legacy.go`. -/
def readLegacyMapResponse (r : Reader) (compress : Bool) (priv : Priv) (pub : Pub) :
    Except Error (MapResponse D R) × Reader :=
  match readLVBytes r with
  | (.error err, r1) => (.error err, r1)
  | (.ok respData, r1) =>
    match B.openFrom priv pub respData with
    | none => (.error decryptErr, r1)
    | some respDec => (unmarshalMapResponse L respDec compress, r1)

/-- The function `writeLegacyMapResponse` of `legacy.go`; `nonce` is the
randomness `SealTo` draws. -/
def writeLegacyMapResponse (w : Writer) (resp : MapResponse D R) (compress : Bool)
    (priv : Priv) (pub : Pub) (nonce : Nonce) : Except Error Unit × Writer :=
  match marshalMapResponse L resp compress with
  | .error err => (.error err, w)
  | .ok respData =>
    let respSealed := B.sealTo priv pub nonce respData
    writeLVBytes w respSealed

end Legacy

/-! ## `state.go`: the identity store -/

/-- A Go `string` or textual key: its bytes. -/
abbrev Text := List Byte

/-- A Go `map[K]V` as a list of entries; the first entry for a key is the one
that counts. -/
abbrev GoMap (K V : Type) := List (K × V)

/-- Go `v, ok := m[k]`. -/
def mapGet {K V : Type} [DecidableEq K] (m : GoMap K V) (k : K) : Option V :=
  match m with
  | [] => none
  | (k1, v) :: rest => if k1 = k then some v else mapGet rest k

/-- Go `m[k] = v`. -/
def mapSet {K V : Type} [DecidableEq K] (m : GoMap K V) (k : K) (v : V) : GoMap K V :=
  (k, v) :: m.filter (fun kv => kv.1 ≠ k)

/-- The textual forms of keys in package `key`: `MachinePrivate.MarshalText`
(whose error the program discards), `MachinePrivate.UnmarshalText`,
`MachinePublic.String`, `MachinePublic.UnmarshalText`, and the zero value
`key.MachinePrivate{}`. -/
structure KeyText (Pub Priv : Type) where
  privMarshalText : Priv → Text
  privUnmarshalText : Text → Except Error Priv
  pubString : Pub → Text
  pubUnmarshalText : Text → Except Error Pub
  zero : Priv

/-- The type `stateJson` of `state.go`. -/
structure stateJson where
  Legacy : Text
  Noise : Text
  MachinesMitmKeys : GoMap Text Text
  deriving DecidableEq, Repr

/-- The JSON library on `stateJson`: the bytes `json.NewEncoder(f).Encode(state)`
writes, and what `json.NewDecoder(f).Decode(&state)` makes of a file with a
given content. -/
structure FileLib where
  jsonEncode : stateJson → List Byte
  jsonDecode : List Byte → Except Error stateJson

/-- The type `state` of `state.go`, without its path and its mutex: the model
is sequential and the state file is the one file passed along. -/
structure state (Pub Priv : Type) where
  legacyKey : Priv
  noiseKey : Priv
  machinesMitmKeys : GoMap Pub Priv

/-- What the file system does when `dumpLocked` runs: everything works, or
`os.OpenFile` fails, or the write fails after `n` bytes. -/
inductive WriteOutcome where
  | ok
  | openFails
  | writeFails (n : Nat)
  deriving DecidableEq, Repr

/-- The error of a failed `os.OpenFile` or `os.Open`. -/
def openErr : Error := .other 5

/-- Writing `new` at offset 0 of a file holding `old`, opened with
`os.O_CREATE|os.O_WRONLY`: bytes of `old` beyond the end of `new` stay. -/
def overwrite (old new : List Byte) : List Byte :=
  new ++ old.drop new.length

/-- The log line `got new machine ..., generating MITM key` of `lookupMitmKey`. -/
inductive LogLine (Pub : Type) where
  | newMachine (pub : Pub)
  deriving DecidableEq, Repr

/-- What one call of `lookupMitmKey` leaves behind: its return values, the
store, the state file and the lines it logged. -/
structure LookupOut (Pub Priv : Type) where
  res : Except Error Priv
  s : state Pub Priv
  file : Option (List Byte)
  log : List (LogLine Pub)

section Store

variable {Pub Priv : Type} [DecidableEq Pub] (K : KeyText Pub Priv) (F : FileLib)

/-- The `stateJson` value `dumpLocked` builds from the store. -/
def toStateJson (s : state Pub Priv) : stateJson :=
  { Legacy := K.privMarshalText s.legacyKey
    Noise := K.privMarshalText s.noiseKey
    MachinesMitmKeys :=
      s.machinesMitmKeys.foldl
        (fun acc kv => mapSet acc (K.pubString kv.1) (K.privMarshalText kv.2)) [] }

/-- The method `dumpLocked` of `state.go`. `file` is the content of the state
file (`none` when it does not exist); the new content is returned. -/
def dumpLocked (s : state Pub Priv) (file : Option (List Byte)) (io : WriteOutcome) :
    Except Error Unit × Option (List Byte) :=
  let st := toStateJson K s
  match io with
  | .openFails => (.error openErr, file)
  | .writeFails n => (.error writeErr, some (overwrite (file.getD []) ((F.jsonEncode st).take n)))
  | .ok => (.ok (), some (overwrite (file.getD []) (F.jsonEncode st)))

/-- The loop of `newState` over the decoded `MachinesMitmKeys`. -/
def loadKeys (entries : GoMap Text Text) (acc : GoMap Pub Priv) :
    Except Error (GoMap Pub Priv) :=
  match entries with
  | [] => .ok acc
  | (k, v) :: rest =>
    match K.pubUnmarshalText k with
    | .error err => .error err
    | .ok pub =>
      match K.privUnmarshalText v with
      | .error err => .error err
      | .ok priv => loadKeys rest (mapSet acc pub priv)

/-- The function `newState` of `state.go`. `fresh1` and `fresh2` are the keys
the two calls of `key.NewMachine()` return when they are made, `io` is what the
file system does to the dump, `openFails` whether `os.Open` fails. -/
def newState (file : Option (List Byte)) (fresh1 fresh2 : Priv) (io : WriteOutcome)
    (openFails : Bool) : Except Error (state Pub Priv) × Option (List Byte) :=
  match file with
  | none =>
    let s : state Pub Priv := { legacyKey := fresh1, noiseKey := fresh2, machinesMitmKeys := [] }
    -- no need to lock in constructor
    match dumpLocked K F s none io with
    | (.error err, file1) => (.error err, file1)
    | (.ok _, file1) => (.ok s, file1)
  | some content =>
    if openFails then (.error openErr, file)
    else
      match F.jsonDecode content with
      | .error err => (.error err, file)
      | .ok st =>
        match K.privUnmarshalText st.Legacy with
        | .error err => (.error err, file)
        | .ok legacyKey =>
          match K.privUnmarshalText st.Noise with
          | .error err => (.error err, file)
          | .ok noiseKey =>
            match loadKeys K st.MachinesMitmKeys [] with
            | .error err => (.error err, file)
            | .ok keys => (.ok ⟨legacyKey, noiseKey, keys⟩, file)

/-- The method `lookupMitmKey` of `state.go`. `fresh` is the key
`key.NewMachine()` returns if it is called, `io` what the file system does to
the dump if there is one. -/
def lookupMitmKey (s : state Pub Priv) (file : Option (List Byte)) (pub : Pub) (fresh : Priv)
    (io : WriteOutcome) : LookupOut Pub Priv :=
  match mapGet s.machinesMitmKeys pub with
  | some k => ⟨.ok k, s, file, []⟩
  | none =>
    let s1 : state Pub Priv :=
      { s with machinesMitmKeys := mapSet s.machinesMitmKeys pub fresh }
    match dumpLocked K F s1 file io with
    | (.error err, file1) => ⟨.error err, s1, file1, [.newMachine pub]⟩
    | (.ok _, file1) =>
      ⟨.ok ((mapGet s1.machinesMitmKeys pub).getD K.zero), s1, file1, [.newMachine pub]⟩

/-- One call in a sequence of lookups: the peer, the key `key.NewMachine()`
would return, and what the file system does to the dump. -/
structure Call (Pub Priv : Type) where
  pub : Pub
  fresh : Priv
  io : WriteOutcome

/-- What a sequence of calls of `lookupMitmKey` leaves behind: the return values
in order, the store, the state file and the log. -/
structure RunOut (Pub Priv : Type) where
  results : List (Except Error Priv)
  s : state Pub Priv
  file : Option (List Byte)
  log : List (LogLine Pub)

/-- A sequence of calls of `lookupMitmKey` on one store, one after the other. -/
def lookups (s : state Pub Priv) (file : Option (List Byte)) :
    List (Call Pub Priv) → RunOut Pub Priv
  | [] => ⟨[], s, file, []⟩
  | c :: cs =>
    let o := lookupMitmKey K F s file c.pub c.fresh c.io
    let r := lookups o.s o.file cs
    ⟨o.res :: r.results, r.s, r.file, o.log ++ r.log⟩

end Store

/-! ## A small instance of the libraries

Used to run the program on concrete inputs: a message is a dial plan of one byte
and a list of bytes for everything else. -/

/-- A JSON stand-in: a tag byte for the dial plan, then the other fields. -/
def demoMarshal (m : MapResponse Byte (List Byte)) : Except Error (List Byte) :=
  match m.ControlDialPlan with
  | none => .ok (0 :: m.others)
  | some d => .ok (1 :: d :: m.others)

/-- The inverse of `demoMarshal`; anything else is a syntax error. -/
def demoUnmarshal (b : List Byte) : Except Error (MapResponse Byte (List Byte)) :=
  match b with
  | [] => .error (.other 2)
  | t :: rest =>
    if t = 0 then .ok ⟨none, rest⟩
    else if t = 1 then
      match rest with
      | [] => .error (.other 2)
      | d :: o => .ok ⟨some d, o⟩
    else .error (.other 2)

/-- A zstd stand-in: one magic byte in front. -/
def demoEncodeAll (d : List Byte) : List Byte := 0x28 :: d

/-- The inverse of `demoEncodeAll`; anything else is corrupt. -/
def demoDecodeAll (b : List Byte) : Except Error (List Byte) :=
  match b with
  | [] => .error (.other 4)
  | t :: rest => if t = 0x28 then .ok rest else .error (.other 4)

/-- The small instance of `Libs`. -/
def demoLibs : Libs Byte (List Byte) :=
  ⟨demoMarshal, demoUnmarshal, demoEncodeAll, demoDecodeAll⟩

/-- A box stand-in on numeric keys: the sealed text carries a byte derived from
both keys and the nonce in front of the data. -/
def demoBox : Box Nat Nat Byte where
  pubOf := fun k => k
  sealTo := fun priv pub nonce d => toByte (priv + pub) :: nonce :: d
  openFrom := fun priv pub b =>
    match b with
    | t :: _ :: d => if t = toByte (pub + priv) then some d else none
    | _ => none

/-- A stand-in for the textual form of keys: keys are bytes, a private key is
written `p` and the byte, a public key `m` and the byte. -/
def demoKeyText : KeyText Byte Byte where
  privMarshalText := fun v => [0x70, v]
  privUnmarshalText := fun t =>
    match t with
    | [c, v] => if c = 0x70 then .ok v else .error (.other 6)
    | _ => .error (.other 6)
  pubString := fun k => [0x6d, k]
  pubUnmarshalText := fun t =>
    match t with
    | [c, k] => if c = 0x6d then .ok k else .error (.other 6)
    | _ => .error (.other 6)
  zero := 0

/-- A text in the stand-in file format: its length, then its bytes. -/
def demoPutText (t : Text) : List Byte := toByte t.length :: t

/-- The stand-in for `json.Encoder.Encode` on `stateJson`: the two texts, the
number of entries, the entries, and a final newline. -/
def demoEncode (st : stateJson) : List Byte :=
  demoPutText st.Legacy ++ demoPutText st.Noise ++
    toByte st.MachinesMitmKeys.length ::
      (st.MachinesMitmKeys.foldr (fun kv acc => demoPutText kv.1 ++ demoPutText kv.2 ++ acc)
        [0x0a])

/-- Reading one text of the stand-in file format. -/
def demoTakeText (b : List Byte) : Option (Text × List Byte) :=
  match b with
  | [] => none
  | n :: rest =>
    if n.val ≤ rest.length then some (rest.take n.val, rest.drop n.val) else none

/-- Reading `c` entries of the stand-in file format. -/
def demoTakeEntries : Nat → List Byte → Option (GoMap Text Text × List Byte)
  | 0, b => some ([], b)
  | c + 1, b =>
    match demoTakeText b with
    | none => none
    | some (k, b1) =>
      match demoTakeText b1 with
      | none => none
      | some (v, b2) =>
        match demoTakeEntries c b2 with
        | none => none
        | some (es, b3) => some ((k, v) :: es, b3)

/-- The stand-in for `json.Decoder.Decode` on a file: it reads one document and,
like the decoder, does not look at what follows it. -/
def demoDecode (b : List Byte) : Except Error stateJson :=
  match demoTakeText b with
  | none => .error (.other 7)
  | some (legacy, b1) =>
    match demoTakeText b1 with
    | none => .error (.other 7)
    | some (noise, b2) =>
      match b2 with
      | [] => .error (.other 7)
      | c :: b3 =>
        match demoTakeEntries c.val b3 with
        | none => .error (.other 7)
        | some (es, b4) =>
          match b4 with
          | [] => .error (.other 7)
          | t :: _ => if t = 0x0a then .ok ⟨legacy, noise, es⟩ else .error (.other 7)

/-- The small instance of `FileLib`. -/
def demoFileLib : FileLib := ⟨demoEncode, demoDecode⟩

/-- The store `newState` makes from the keys 1 and 2 when there is no file. -/
def demoStore : state Byte Byte := ⟨1, 2, []⟩

/-- The state file `newState` writes for `demoStore`. -/
def demoFile : List Byte := demoEncode (toStateJson demoKeyText demoStore)

/-- A message of the small instance whose other fields take 1,048,576 bytes. -/
def demoBigMsg : MapResponse Byte (List Byte) := ⟨none, List.replicate 1048576 0⟩

/-- The concatenation of the frames of a list of payloads. -/
def frames : List (List Byte) → List Byte
  | [] => []
  | p :: ps => frame p ++ frames ps

/-- The events that are effects on the two streams (not log lines). -/
def Event.isEffect : Event → Bool
  | .read => true
  | .wrote => true
  | .flush => true
  | _ => false

/-- The log lines that report an error. -/
def Event.isError : Event → Bool
  | .logReadErr _ => true
  | .logWriteErr _ => true
  | _ => false

/-- The effects of relaying `n` records and then meeting the end of the stream:
`n` times read, write, flush, then one last read. -/
def relayEffects : Nat → List Event
  | 0 => [.read]
  | n + 1 => [.read, .wrote, .flush] ++ relayEffects n

/-- The message `resp` after `resp.ControlDialPlan = nil`. -/
def clearDialPlan {D R : Type} (resp : MapResponse D R) : MapResponse D R :=
  { resp with ControlDialPlan := none }

/-- One record of a streaming exchange: the payload of the upstream frame, the
message it carries, and the payload of the frame written downstream for it. -/
structure Record (D R : Type) where
  payload : List Byte
  msg : MapResponse D R
  out : List Byte

/-- A valid record: its payload is within the 1 MiB ceiling and decodes to
`msg`, and `msg` with its dial plan cleared encodes to `out`. -/
abbrev ValidRecord {D R : Type} (L : Libs D R) (compress : Bool) (x : Record D R) : Prop :=
  x.payload.length ≤ 1048576 ∧
  unmarshalMapResponse L x.payload compress = .ok x.msg ∧
  marshalMapResponse L (clearDialPlan x.msg) compress = .ok x.out

/-- Three upstream records for the small instance, uncompressed: the first and
the third carry a dial plan. -/
def demoRecords : List (Record Byte (List Byte)) :=
  [⟨[1, 7, 5], ⟨some 7, [5]⟩, [0, 5]⟩, ⟨[0, 9], ⟨none, [9]⟩, [0, 9]⟩, ⟨[1, 2], ⟨some 2, []⟩, [0]⟩]

/-! ## Framing lemmas -/

theorem readFull_ok_length {r r1 : Reader} {n : Nat} {d : List Byte}
    (h : readFull r n = (.ok d, r1)) : r1.length + n = r.length ∧ d.length = n := by
  unfold readFull at h
  split at h
  · simp only [Prod.mk.injEq, Except.ok.injEq] at h
    obtain ⟨hd, hr⟩ := h
    subst hd hr
    simp only [List.length_drop, List.length_take]
    omega
  · split at h <;> simp at h

theorem readLVBytes_ok_length {r r1 : Reader} {d : List Byte}
    (h : readLVBytes r = (.ok d, r1)) : r1.length + 4 + d.length = r.length := by
  unfold readLVBytes at h
  split at h
  · simp at h
  · rename_i lenBuf r0 h4
    have h4 := readFull_ok_length h4
    simp only at h
    split at h
    · simp at h
    · split at h
      · simp at h
      · rename_i respData r2 hp
        have hp := readFull_ok_length hp
        simp only [Prod.mk.injEq, Except.ok.injEq] at h
        obtain ⟨hd, hr⟩ := h
        subst hd hr
        omega

theorem readMapResponse_ok_length {D R : Type} (L : Libs D R) {r r1 : Reader} {compress : Bool}
    {resp : MapResponse D R} (h : readMapResponse L r compress = (.ok resp, r1)) :
    r1.length < r.length := by
  unfold readMapResponse at h
  split at h
  · simp at h
  · rename_i respData r0 hr
    have hr := readLVBytes_ok_length hr
    simp only [Prod.mk.injEq] at h
    obtain ⟨_, h2⟩ := h
    subst h2
    omega


theorem writeLVBytes_none (b respData : List Byte) :
    writeLVBytes ⟨b, none⟩ respData = (.ok (), ⟨b ++ frame respData, none⟩) := by
  simp [writeLVBytes, Writer.write, frame]

theorem or_shiftLeft_eq_add (a b i : Nat) (h : a < 2 ^ i) :
    a ||| (b <<< i) = a + b * 2 ^ i := by
  rw [Nat.shiftLeft_eq, Nat.or_comm, Nat.mul_comm, ← Nat.mul_add_lt_is_or h]
  omega

theorem getUint32_putUint32 (v : Nat) (hv : v < 2 ^ 32) : getUint32 (putUint32 v) = v := by
  simp only [getUint32, putUint32, toByte, Nat.shiftRight_eq_div_pow]
  rw [or_shiftLeft_eq_add _ _ 8 (by omega), or_shiftLeft_eq_add _ _ 16 (by omega),
    or_shiftLeft_eq_add _ _ 24 (by omega)]
  omega

theorem putUint32_length (v : Nat) : (putUint32 v).length = 4 := rfl

theorem readFull_append (a b : List Byte) :
    readFull (a ++ b) a.length = (.ok a, b) := by
  simp [readFull]

theorem readFull_putUint32_append (v : Nat) (b : List Byte) :
    readFull (putUint32 v ++ b) 4 = (.ok (putUint32 v), b) := by
  have h := readFull_append (putUint32 v) b
  rwa [putUint32_length] at h

/-- Reading a frame whose announced length is within the ceiling gives the first
`uint32 (len p)` bytes of what follows the length. -/
theorem readLVBytes_frame_le (p rest : List Byte) (h : uint32 p.length ≤ 1048576) :
    readLVBytes (frame p ++ rest) = readFull (p ++ rest) (uint32 p.length) := by
  have hlt : uint32 p.length < 2 ^ 32 := Nat.mod_lt _ (by decide)
  have hn : ¬ (uint32 p.length > 1 <<< 20) := by
    have : (1 <<< 20 : Nat) = 1048576 := by decide
    omega
  simp only [readLVBytes, frame, List.append_assoc, readFull_putUint32_append,
    getUint32_putUint32 _ hlt, hn, if_false]
  cases readFull (p ++ rest) (uint32 p.length) with
  | mk res r2 => cases res <;> rfl

/-- Reading back a frame within the ceiling, whatever follows it. -/
theorem readLVBytes_frame_append (p rest : List Byte) (h : p.length ≤ 1048576) :
    readLVBytes (frame p ++ rest) = (.ok p, rest) := by
  have hu : uint32 p.length = p.length := Nat.mod_eq_of_lt (by omega)
  rw [readLVBytes_frame_le p rest (by omega), hu, readFull_append]

/-- Reading a frame whose announced length exceeds the ceiling. -/
theorem readLVBytes_frame_gt (p rest : List Byte) (h : 1048576 < uint32 p.length) :
    readLVBytes (frame p ++ rest) = (.error .ErrUnexpectedEOF, p ++ rest) := by
  have hlt : uint32 p.length < 2 ^ 32 := Nat.mod_lt _ (by decide)
  have hn : uint32 p.length > 1 <<< 20 := by
    have : (1 <<< 20 : Nat) = 1048576 := by decide
    omega
  simp only [readLVBytes, frame, List.append_assoc, readFull_putUint32_append,
    getUint32_putUint32 _ hlt, hn, if_true]

theorem getUint32_eq (b0 b1 b2 b3 : Byte) :
    getUint32 [b0, b1, b2, b3] =
      b0.val + b1.val * 2 ^ 8 + b2.val * 2 ^ 16 + b3.val * 2 ^ 24 := by
  have h0 := b0.isLt
  have h1 := b1.isLt
  have h2 := b2.isLt
  simp only [getUint32]
  rw [or_shiftLeft_eq_add _ _ 8 (by omega), or_shiftLeft_eq_add _ _ 16 (by omega),
    or_shiftLeft_eq_add _ _ 24 (by omega)]

theorem putUint32_getUint32 (b : List Byte) (h : b.length = 4) :
    putUint32 (getUint32 b) = b ∧ getUint32 b < 2 ^ 32 := by
  match b, h with
  | [b0, b1, b2, b3], _ =>
    have h0 := b0.isLt
    have h1 := b1.isLt
    have h2 := b2.isLt
    have h3 := b3.isLt
    rw [getUint32_eq]
    refine ⟨?_, by omega⟩
    simp only [putUint32, toByte, Nat.shiftRight_eq_div_pow, List.cons.injEq, and_true,
      Fin.ext_iff]
    omega

theorem readFull_ok_inv {r r1 : Reader} {n : Nat} {d : List Byte}
    (h : readFull r n = (.ok d, r1)) : r = d ++ r1 ∧ d.length = n := by
  unfold readFull at h
  split at h
  · simp only [Prod.mk.injEq, Except.ok.injEq] at h
    obtain ⟨hd, hr⟩ := h
    subst hd hr
    simp only [List.take_append_drop, List.length_take, true_and]
    omega
  · split at h <;> simp at h

/-- Whatever `readLVBytes` returns as a payload was on the stream as a frame
within the ceiling. -/
theorem readLVBytes_ok_inv {r r1 : Reader} {d : List Byte}
    (h : readLVBytes r = (.ok d, r1)) : r = frame d ++ r1 ∧ d.length ≤ 1048576 := by
  unfold readLVBytes at h
  split at h
  · simp at h
  · rename_i lenBuf r0 h4
    obtain ⟨hr, hl⟩ := readFull_ok_inv h4
    simp only at h
    split at h
    · simp at h
    · rename_i hle
      split at h
      · simp at h
      · rename_i respData r2 hp
        obtain ⟨hr0, hdl⟩ := readFull_ok_inv hp
        simp only [Prod.mk.injEq, Except.ok.injEq] at h
        obtain ⟨hd, hr2⟩ := h
        subst hd hr2
        have h20 : (1 <<< 20 : Nat) = 1048576 := by decide
        have hle2 : respData.length ≤ 1048576 := by omega
        refine ⟨?_, hle2⟩
        have hu : uint32 respData.length = getUint32 lenBuf := by
          rw [hdl]
          exact Nat.mod_eq_of_lt (by omega)
        rw [frame, hu, (putUint32_getUint32 lenBuf hl).1, hr, hr0, List.append_assoc]

/-- When `readLVBytes` returns `io.EOF`: on the empty stream, and on a stream
that is exactly a length between 1 and 1,048,576 with no payload byte after it;
in no other case. -/
theorem readLVBytes_eof_iff (r : Reader) :
    (readLVBytes r).1 = .error .EOF ↔
      r = [] ∨ (r.length = 4 ∧ 0 < getUint32 r ∧ getUint32 r ≤ 1048576) := by
  have h20 : (1 <<< 20 : Nat) = 1048576 := by decide
  unfold readLVBytes readFull
  by_cases h4 : 4 ≤ r.length
  · have hne : r ≠ [] := by
      intro e; rw [e] at h4; simp at h4
    simp only [h4, if_true, h20, hne, false_or]
    by_cases hbig : getUint32 (List.take 4 r) > 1048576
    · simp only [hbig, if_true]
      constructor
      · intro h; cases h
      · rintro ⟨hl, _, hle⟩
        rw [List.take_of_length_le (by omega)] at hbig
        omega
    · simp only [hbig, if_false, List.length_drop]
      by_cases hfit : getUint32 (List.take 4 r) ≤ r.length - 4
      · simp only [hfit, if_true]
        constructor
        · intro h; cases h
        · rintro ⟨hl, hpos, _⟩
          rw [List.take_of_length_le (by omega)] at hfit
          omega
      · simp only [hfit, if_false]
        by_cases hz : r.length - 4 = 0
        · simp only [hz, if_true, true_iff]
          have hl : r.length = 4 := by omega
          rw [List.take_of_length_le (by omega)] at hfit hbig
          exact ⟨hl, by omega, by omega⟩
        · simp only [hz, if_false]
          constructor
          · intro h; cases h
          · rintro ⟨hl, _, _⟩
            omega
  · simp only [h4, if_false]
    by_cases hz : r.length = 0
    · simp only [hz, if_true, true_iff]
      exact Or.inl (List.length_eq_zero.1 hz)
    · simp only [hz, if_false]
      constructor
      · intro h; cases h
      · rintro (e | ⟨hl, _, _⟩)
        · rw [e] at hz; simp at hz
        · omega

/-! ## Claims on framing -/

/-- C1: for every payload `p` of at most 1,048,576 bytes, `writeLVBytes` on an
empty buffer succeeds, and `readLVBytes` on exactly the bytes it wrote returns
`p` and no error, with nothing left unread. -/
theorem C1_readLVBytes_writeLVBytes (p : List Byte) (hp : p.length ≤ 1048576) :
    (writeLVBytes ⟨[], none⟩ p).1 = .ok () ∧
    readLVBytes (writeLVBytes ⟨[], none⟩ p).2.buf = (.ok p, []) := by
  rw [writeLVBytes_none]
  refine ⟨rfl, ?_⟩
  have h := readLVBytes_frame_append p [] hp
  simpa using h

/-- C1 at the payload `[1, 2, 3]`. -/
theorem C1_readLVBytes_writeLVBytes_witness :
    ([1, 2, 3] : List Byte).length ≤ 1048576 ∧
    (writeLVBytes ⟨[], none⟩ [1, 2, 3]).1 = .ok () ∧
    readLVBytes (writeLVBytes ⟨[], none⟩ [1, 2, 3]).2.buf = (.ok [1, 2, 3], []) :=
  ⟨by decide, C1_readLVBytes_writeLVBytes [1, 2, 3] (by decide)⟩

/-- C2: on the stream `01 00 00 00` followed by a clean close (a length of 1
was announced and no payload byte arrived) `readLVBytes` returns `io.EOF`, the
same value it returns on the empty stream. -/
theorem C2_readLVBytes_eof_after_length :
    readLVBytes [1, 0, 0, 0] = (.error .EOF, []) ∧ readLVBytes [] = (.error .EOF, []) := by
  constructor <;> decide

theorem writeLVBytes_none_buf (b respData : List Byte) :
    (writeLVBytes ⟨b, none⟩ respData).2.buf = b ++ frame respData := by
  rw [writeLVBytes_none]

/-- A payload whose length is a multiple of 2^32 is announced as empty and read
back as empty, leaving every payload byte unread. -/
theorem readLVBytes_frame_wrapped (p : List Byte) (h : uint32 p.length = 0) :
    readLVBytes (frame p) = (.ok [], p) := by
  have h1 := readLVBytes_frame_le p [] (by omega)
  rw [h, List.append_nil, List.append_nil] at h1
  rw [h1]
  simp [readFull]

/-- C3: the payload of 4,294,967,296 zero bytes is longer than 1,048,576 bytes,
`writeLVBytes` announces it with length 0, and `readLVBytes` on the bytes
written returns an empty payload and no error. -/
theorem C3_readLVBytes_wrapped_length :
    1048576 < (List.replicate 4294967296 (0 : Byte)).length ∧
    readLVBytes (writeLVBytes ⟨[], none⟩ (List.replicate 4294967296 (0 : Byte))).2.buf =
      (.ok [], List.replicate 4294967296 0) := by
  constructor
  · rw [List.length_replicate]
    decide
  · rw [writeLVBytes_none_buf, List.nil_append]
    apply readLVBytes_frame_wrapped
    rw [List.length_replicate]
    rfl

/-! ## The streaming transcoder -/

section TranscoderProofs

variable {D R : Type} (L : Libs D R)

theorem readMapResponse_frame (p rest : List Byte) (compress : Bool) (h : p.length ≤ 1048576) :
    readMapResponse L (frame p ++ rest) compress =
      (unmarshalMapResponse L p compress, rest) := by
  simp [readMapResponse, readLVBytes_frame_append p rest h]

theorem writeMapResponse_none (b q : List Byte) (resp : MapResponse D R) (compress : Bool)
    (h : marshalMapResponse L resp compress = .ok q) :
    writeMapResponse L ⟨b, none⟩ resp compress = (.ok (), ⟨b ++ frame q, none⟩) := by
  simp [writeMapResponse, h, writeLVBytes_none]

/-- One turn of the loop, as an equation. -/
theorem mapPollLoop_eq (dump compress : Bool) (src : Reader) (dst : Writer) :
    mapPollLoop L dump compress src dst =
      match readMapResponse L src compress with
      | (.error err, src1) =>
        if err = .EOF then ⟨src1, dst, [.read]⟩ else ⟨src1, dst, [.read, .logReadErr err]⟩
      | (.ok resp, src1) =>
        match writeMapResponse L dst (clearDialPlan resp) compress with
        | (.error err, dst1) =>
          ⟨src1, dst1, [.read] ++ dumpResp L dump (clearDialPlan resp) ++ [.logWriteErr err]⟩
        | (.ok _, dst1) =>
          { mapPollLoop L dump compress src1 dst1 with
            trace := [.read] ++ dumpResp L dump (clearDialPlan resp) ++ [.wrote, .flush] ++
              (mapPollLoop L dump compress src1 dst1).trace } := by
  rw [mapPollLoop]
  split
  · rename_i err src1 h
    rw [h]
  · rename_i resp src1 h
    rw [h]
    rfl

theorem mapPollLoop_nil (dump compress : Bool) (dst : Writer) :
    mapPollLoop L dump compress [] dst = ⟨[], dst, [.read]⟩ := by
  rw [mapPollLoop_eq]
  rfl

theorem dumpResp_filter_isEffect (dump : Bool) (resp : MapResponse D R) :
    (dumpResp L dump resp).filter Event.isEffect = [] := by
  unfold dumpResp
  split
  · split <;> rfl
  · rfl

theorem dumpResp_filter_isError (dump : Bool) (resp : MapResponse D R) :
    (dumpResp L dump resp).filter Event.isError = [] := by
  unfold dumpResp
  split
  · split <;> rfl
  · rfl

/-- The loop on a stream of valid records followed by a clean close, writing to
a writer that does not fail. -/
theorem mapPollLoop_valid (dump compress : Bool) (recs : List (Record D R))
    (hv : ∀ x ∈ recs, ValidRecord L compress x) (b : List Byte) :
    (mapPollLoop L dump compress (frames (recs.map Record.payload)) ⟨b, none⟩).src = [] ∧
    (mapPollLoop L dump compress (frames (recs.map Record.payload)) ⟨b, none⟩).dst =
      ⟨b ++ frames (recs.map Record.out), none⟩ ∧
    (mapPollLoop L dump compress (frames (recs.map Record.payload)) ⟨b, none⟩).trace.filter
      Event.isEffect = relayEffects recs.length ∧
    (mapPollLoop L dump compress (frames (recs.map Record.payload)) ⟨b, none⟩).trace.filter
      Event.isError = [] := by
  induction recs generalizing b with
  | nil =>
    simp only [List.map_nil, frames, mapPollLoop_nil, List.append_nil, List.length_nil,
      relayEffects]
    exact ⟨trivial, trivial, rfl, rfl⟩
  | cons x recs ih =>
    obtain ⟨hlen, hdec, henc⟩ := hv x (List.mem_cons_self _ _)
    have hv2 : ∀ y ∈ recs, ValidRecord L compress y :=
      fun y hy => hv y (List.mem_cons_of_mem _ hy)
    obtain ⟨h1, h2, h3, h4⟩ := ih hv2 (b ++ frame x.out)
    simp only [List.map_cons, frames, List.length_cons]
    rw [mapPollLoop_eq, readMapResponse_frame L _ _ _ hlen, hdec]
    simp only [writeMapResponse_none L b x.out _ _ henc]
    refine ⟨h1, ?_, ?_, ?_⟩
    · simp only [h2, List.append_assoc]
    · simp only [List.filter_append, dumpResp_filter_isEffect, h3, relayEffects]
      rfl
    · simp only [List.filter_append, dumpResp_filter_isError, h4]
      rfl

theorem writeLVBytes_ok {w w1 : Writer} {q : List Byte} {u : Unit}
    (h : writeLVBytes w q = (.ok u, w1)) : w1.buf = w.buf ++ frame q := by
  obtain ⟨b, fa⟩ := w
  unfold writeLVBytes Writer.write at h
  rcases fa with _ | _ | _ | k <;> simp at h <;> simp [← h, frame]

theorem writeLVBytes_error {w w1 : Writer} {q : List Byte} {e : Error}
    (h : writeLVBytes w q = (.error e, w1)) :
    w1.buf = w.buf ∨ w1.buf = w.buf ++ putUint32 (uint32 q.length) := by
  obtain ⟨b, fa⟩ := w
  unfold writeLVBytes Writer.write at h
  rcases fa with _ | _ | _ | k <;> simp at h <;> simp [← h]

theorem readMapResponse_ok_inv {r r1 : Reader} {compress : Bool} {resp : MapResponse D R}
    (h : readMapResponse L r compress = (.ok resp, r1)) :
    ∃ p, r = frame p ++ r1 ∧ p.length ≤ 1048576 ∧
      unmarshalMapResponse L p compress = .ok resp := by
  unfold readMapResponse at h
  split at h
  · simp at h
  · rename_i respData r0 hr
    simp only [Prod.mk.injEq] at h
    obtain ⟨h1, h2⟩ := h
    subst h2
    obtain ⟨hf, hl⟩ := readLVBytes_ok_inv hr
    exact ⟨respData, hf, hl, h1⟩

theorem writeMapResponse_ok {w w1 : Writer} {resp : MapResponse D R} {compress : Bool}
    {u : Unit} (h : writeMapResponse L w resp compress = (.ok u, w1)) :
    ∃ q, marshalMapResponse L resp compress = .ok q ∧ w1.buf = w.buf ++ frame q := by
  unfold writeMapResponse at h
  split at h
  · simp at h
  · rename_i respData hm
    exact ⟨respData, hm, writeLVBytes_ok h⟩

theorem writeMapResponse_error {w w1 : Writer} {resp : MapResponse D R} {compress : Bool}
    {e : Error} (h : writeMapResponse L w resp compress = (.error e, w1)) :
    w1.buf = w.buf ∨ ∃ q : List Byte, w1.buf = w.buf ++ putUint32 (uint32 q.length) := by
  unfold writeMapResponse at h
  split at h
  · simp only [Prod.mk.injEq] at h
    exact Or.inl (by rw [← h.2])
  · rename_i respData hm
    rcases writeLVBytes_error h with h1 | h1
    · exact Or.inl h1
    · exact Or.inr ⟨respData, h1⟩

/-- Decoding what `marshalMapResponse` produced gives the message back, when
JSON and zstd each round-trip. -/
theorem unmarshal_marshal
    (hjson : ∀ m j, L.jsonMarshal m = .ok j → L.jsonUnmarshal j = .ok m)
    (hzstd : ∀ d, L.zstdDecodeAll (L.zstdEncodeAll d) = .ok d)
    {m : MapResponse D R} {compress : Bool} {q : List Byte}
    (h : marshalMapResponse L m compress = .ok q) :
    unmarshalMapResponse L q compress = .ok m := by
  unfold marshalMapResponse at h
  split at h
  · simp at h
  · rename_i respJSON hj
    unfold unmarshalMapResponse
    cases compress with
    | true =>
      simp only [if_true, Except.ok.injEq] at h
      subst h
      simp only [if_true, hzstd]
      exact hjson _ _ hj
    | false =>
      simp only [Bool.false_eq_true, if_false, Except.ok.injEq] at h
      subst h
      simp only [Bool.false_eq_true, if_false]
      exact hjson _ _ hj

theorem mapPollLoop_read_error (dump compress : Bool) {src src1 : Reader} (dst : Writer)
    {err : Error} (hread : readMapResponse L src compress = (.error err, src1)) :
    mapPollLoop L dump compress src dst =
      if err = .EOF then ⟨src1, dst, [.read]⟩ else ⟨src1, dst, [.read, .logReadErr err]⟩ := by
  rw [mapPollLoop_eq, hread]

theorem mapPollLoop_write_error (dump compress : Bool) {src src1 : Reader} {dst dst1 : Writer}
    {resp : MapResponse D R} {err : Error}
    (hread : readMapResponse L src compress = (.ok resp, src1))
    (hw : writeMapResponse L dst (clearDialPlan resp) compress = (.error err, dst1)) :
    mapPollLoop L dump compress src dst =
      ⟨src1, dst1, [.read] ++ dumpResp L dump (clearDialPlan resp) ++ [.logWriteErr err]⟩ := by
  rw [mapPollLoop_eq, hread]
  simp only [hw]

theorem mapPollLoop_step (dump compress : Bool) {src src1 : Reader} {dst dst1 : Writer}
    {resp : MapResponse D R} {u : Unit}
    (hread : readMapResponse L src compress = (.ok resp, src1))
    (hw : writeMapResponse L dst (clearDialPlan resp) compress = (.ok u, dst1)) :
    mapPollLoop L dump compress src dst =
      ⟨(mapPollLoop L dump compress src1 dst1).src, (mapPollLoop L dump compress src1 dst1).dst,
        [.read] ++ dumpResp L dump (clearDialPlan resp) ++ [.wrote, .flush] ++
          (mapPollLoop L dump compress src1 dst1).trace⟩ := by
  rw [mapPollLoop_eq, hread]
  simp only [hw]

theorem dumpResp_filter_wrote (dump : Bool) (resp : MapResponse D R) :
    (dumpResp L dump resp).filter (fun e => e = Event.wrote) = [] := by
  unfold dumpResp
  split
  · split <;> rfl
  · rfl

/-- Every run of the loop relays a list of records: the upstream stream starts
with their frames, the downstream buffer grows by the frames written for them
(then, when a write failed half-way, by one bare length), one successful write
is counted per record, each frame written is the encoding of the upstream
message with only the dial plan cleared, and the loop stops only where the next
read fails or a write has failed. -/
theorem mapPollLoop_relays (dump compress : Bool) (src : Reader) (dst : Writer) :
    ∃ (recs : List (Record D R)) (rest tail : List Byte),
      src = frames (recs.map Record.payload) ++ rest ∧
      (mapPollLoop L dump compress src dst).dst.buf =
        dst.buf ++ frames (recs.map Record.out) ++ tail ∧
      (tail = [] ∨ ∃ q : List Byte, tail = putUint32 (uint32 q.length)) ∧
      ((mapPollLoop L dump compress src dst).trace.filter (fun e => e = Event.wrote)).length =
        recs.length ∧
      ((∃ err, (readMapResponse L rest compress).1 = .error err) ∨
        ∃ err, Event.logWriteErr err ∈ (mapPollLoop L dump compress src dst).trace) ∧
      ∀ x ∈ recs, ValidRecord L compress x ∧
        ∃ m, marshalMapResponse L m compress = .ok x.out ∧
          m.ControlDialPlan = none ∧ m.others = x.msg.others := by
  generalize hn : src.length = n
  induction n using Nat.strong_induction_on generalizing src dst with
  | _ n ih =>
    cases hread : readMapResponse L src compress with
    | mk res src1 =>
      cases res with
      | error err =>
        rw [mapPollLoop_read_error L dump compress dst hread]
        refine ⟨[], src, [], by simp [frames], ?_, Or.inl rfl, ?_,
          Or.inl ⟨err, by rw [hread]⟩, by simp⟩
        · split <;> simp [frames]
        · split <;> rfl
      | ok resp =>
        obtain ⟨p, hsrc, hpl, hdec⟩ := readMapResponse_ok_inv L hread
        have hlt : src1.length < n := by
          rw [← hn]; exact readMapResponse_ok_length L hread
        cases hw : writeMapResponse L dst (clearDialPlan resp) compress with
        | mk wres dst1 =>
          cases wres with
          | error e =>
            rw [mapPollLoop_write_error L dump compress hread hw]
            have hcount : (([Event.read] ++ dumpResp L dump (clearDialPlan resp) ++
                [Event.logWriteErr e]).filter (fun e => e = Event.wrote)).length = 0 := by
              simp only [List.filter_append, dumpResp_filter_wrote]
              rfl
            have hmem : Event.logWriteErr e ∈
                [Event.read] ++ dumpResp L dump (clearDialPlan resp) ++
                  [Event.logWriteErr e] :=
              List.mem_append_right _ (List.mem_singleton.2 rfl)
            rcases writeMapResponse_error L hw with h1 | ⟨q, h1⟩
            · exact ⟨[], src, [], by simp [frames], by simp [frames, h1], Or.inl rfl,
                hcount, Or.inr ⟨e, hmem⟩, by simp⟩
            · exact ⟨[], src, putUint32 (uint32 q.length), by simp [frames],
                by simp [frames, h1], Or.inr ⟨q, rfl⟩, hcount, Or.inr ⟨e, hmem⟩, by simp⟩
          | ok u =>
            rw [mapPollLoop_step L dump compress hread hw]
            obtain ⟨q, hq, hbuf⟩ := writeMapResponse_ok L hw
            obtain ⟨recs, rest, tail, h1, h2, h3, h4, h5, h6⟩ :=
              ih src1.length hlt src1 dst1 rfl
            refine ⟨⟨p, resp, q⟩ :: recs, rest, tail, ?_, ?_, h3, ?_, ?_, ?_⟩
            · simp only [List.map_cons, frames, List.append_assoc]
              rw [hsrc, ← h1]
            · simp only [List.map_cons, frames, List.append_assoc]
              rw [h2, hbuf]
              simp only [List.append_assoc]
            · simp only [List.filter_append, List.length_append, h4, List.length_cons,
                dumpResp_filter_wrote]
              have : ([Event.read].filter (fun e => e = Event.wrote)).length = 0 := rfl
              have : ([Event.wrote, Event.flush].filter (fun e => e = Event.wrote)).length = 1 :=
                rfl
              simp only [List.length_nil]
              omega
            · rcases h5 with h5 | ⟨err, h5⟩
              · exact Or.inl h5
              · exact Or.inr ⟨err, List.mem_append_right _ h5⟩
            · intro x hx
              rcases List.mem_cons.1 hx with hx | hx
              · subst hx
                exact ⟨⟨hpl, hdec, hq⟩, clearDialPlan resp, hq, rfl, rfl⟩
              · exact h6 x hx

end TranscoderProofs

/-! ## The small instance round-trips -/

theorem demoLibs_json (m : MapResponse Byte (List Byte)) (j : List Byte)
    (h : demoLibs.jsonMarshal m = .ok j) : demoLibs.jsonUnmarshal j = .ok m := by
  obtain ⟨cdp, o⟩ := m
  cases cdp with
  | none =>
    simp only [demoLibs, demoMarshal, Except.ok.injEq] at h
    subst h
    rfl
  | some d =>
    simp only [demoLibs, demoMarshal, Except.ok.injEq] at h
    subst h
    rfl

theorem demoLibs_zstd (d : List Byte) :
    demoLibs.zstdDecodeAll (demoLibs.zstdEncodeAll d) = .ok d := rfl

theorem demoBox_open (a b : Nat) (nonce : Byte) (d : List Byte) :
    demoBox.openFrom b (demoBox.pubOf a) (demoBox.sealTo a (demoBox.pubOf b) nonce d) =
      some d := by
  simp [demoBox]

/-! ## Claims on the streaming transcoder -/

/-- C6: on an upstream stream made of `n` valid records followed by a clean
close, with a downstream writer that accepts every write, `processMapPoll`
consumes the whole stream, writes exactly the `n` frames of the re-encoded
records, in order, performs the effects read, write, flush `n` times followed by
one last read, and logs no error. -/
theorem C6_processMapPoll_normal_run {D R : Type} (L : Libs D R) (dumpMapPolls : Bool)
    (req : List Byte) (recs : List (Record D R)) (b : List Byte)
    (hv : ∀ x ∈ recs, ValidRecord L (bytesContains req compressMarker) x) :
    (processMapPoll L dumpMapPolls req (frames (recs.map Record.payload)) ⟨b, none⟩).src = [] ∧
    (processMapPoll L dumpMapPolls req (frames (recs.map Record.payload)) ⟨b, none⟩).dst =
      ⟨b ++ frames (recs.map Record.out), none⟩ ∧
    (processMapPoll L dumpMapPolls req (frames (recs.map Record.payload)) ⟨b, none⟩).trace.filter
      Event.isEffect = relayEffects recs.length ∧
    (processMapPoll L dumpMapPolls req (frames (recs.map Record.payload)) ⟨b, none⟩).trace.filter
      Event.isError = [] := by
  obtain ⟨h1, h2, h3, h4⟩ := mapPollLoop_valid L dumpMapPolls _ recs hv b
  simp only [processMapPoll]
  refine ⟨h1, h2, ?_, ?_⟩
  · rw [List.filter_append, h3]
    split <;> rfl
  · rw [List.filter_append, h4]
    split <;> rfl

/-- C7: every run of `processMapPoll`, in either compression mode and whatever
the two streams do, relays a list of records: the upstream stream starts with
their frames, each of which decodes to a message; the downstream buffer grows by
exactly one frame per record, in order (followed, when a write failed half-way,
by one bare length); one successful write is made per record; the run stops
only where the next upstream read fails or a write has failed; and the frame
written for a record is the encoding of a message whose `ControlDialPlan` is
cleared and whose other fields are those of the upstream message. -/
theorem C7_processMapPoll_clears_dial_plan {D R : Type} (L : Libs D R)
    (dumpMapPolls : Bool) (req : List Byte) (src : Reader) (dst : Writer) :
    ∃ (recs : List (Record D R)) (rest tail : List Byte),
      src = frames (recs.map Record.payload) ++ rest ∧
      (processMapPoll L dumpMapPolls req src dst).dst.buf =
        dst.buf ++ frames (recs.map Record.out) ++ tail ∧
      (tail = [] ∨ ∃ q : List Byte, tail = putUint32 (uint32 q.length)) ∧
      ((processMapPoll L dumpMapPolls req src dst).trace.filter
        (fun e => e = Event.wrote)).length = recs.length ∧
      ((∃ err, (readMapResponse L rest (bytesContains req compressMarker)).1 = .error err) ∨
        ∃ err, Event.logWriteErr err ∈ (processMapPoll L dumpMapPolls req src dst).trace) ∧
      ∀ x ∈ recs,
        x.payload.length ≤ 1048576 ∧
        unmarshalMapResponse L x.payload (bytesContains req compressMarker) = .ok x.msg ∧
        ∃ m, marshalMapResponse L m (bytesContains req compressMarker) = .ok x.out ∧
          m.ControlDialPlan = none ∧ m.others = x.msg.others := by
  obtain ⟨recs, rest, tail, h1, h2, h3, h4, h5, h6⟩ :=
    mapPollLoop_relays L dumpMapPolls (bytesContains req compressMarker) src dst
  refine ⟨recs, rest, tail, h1, h2, h3, ?_, ?_, ?_⟩
  · simp only [processMapPoll, List.filter_append, List.length_append, h4]
    split <;> simp
  · rcases h5 with h5 | ⟨err, h5⟩
    · exact Or.inl h5
    · exact Or.inr ⟨err, List.mem_append_right _ h5⟩
  · intro x hx
    obtain ⟨⟨hl, hd, _⟩, hm⟩ := h6 x hx
    exact ⟨hl, hd, hm⟩

/-- C6 on the three records of `demoRecords`, with logging on. -/
theorem C6_processMapPoll_normal_run_witness :
    (∀ x ∈ demoRecords, ValidRecord demoLibs (bytesContains [] compressMarker) x) ∧
    (processMapPoll demoLibs true [] (frames (demoRecords.map Record.payload)) ⟨[], none⟩).src
      = [] ∧
    (processMapPoll demoLibs true [] (frames (demoRecords.map Record.payload)) ⟨[], none⟩).dst =
      ⟨[] ++ frames (demoRecords.map Record.out), none⟩ ∧
    (processMapPoll demoLibs true [] (frames (demoRecords.map Record.payload))
      ⟨[], none⟩).trace.filter Event.isEffect = relayEffects demoRecords.length ∧
    (processMapPoll demoLibs true [] (frames (demoRecords.map Record.payload))
      ⟨[], none⟩).trace.filter Event.isError = [] :=
  ⟨by decide, C6_processMapPoll_normal_run demoLibs true [] demoRecords [] (by decide)⟩

/-! ## Claims on the sealed codec -/

section LegacyProofs

variable {D R Priv Pub Nonce : Type} (L : Libs D R) (B : Box Priv Pub Nonce)

/-- Writing a sealed message on a writer that accepts it. -/
theorem writeLegacyMapResponse_none (b q : List Byte) (resp : MapResponse D R)
    (compress : Bool) (priv : Priv) (pub : Pub) (nonce : Nonce)
    (h : marshalMapResponse L resp compress = .ok q) :
    writeLegacyMapResponse L B ⟨b, none⟩ resp compress priv pub nonce =
      (.ok (), ⟨b ++ frame (B.sealTo priv pub nonce q), none⟩) := by
  simp [writeLegacyMapResponse, h, writeLVBytes_none]

/-- Reading a sealed message whose sealed payload exceeds the ceiling. -/
theorem readLegacyMapResponse_oversize (q : List Byte) (resp : MapResponse D R)
    (compress : Bool) (a b : Priv) (nonce : Nonce)
    (hq : marshalMapResponse L resp compress = .ok q)
    (hgt : 1048576 < (B.sealTo a (B.pubOf b) nonce q).length)
    (hlt : (B.sealTo a (B.pubOf b) nonce q).length < 2 ^ 32) :
    (readLegacyMapResponse L B
      (writeLegacyMapResponse L B ⟨[], none⟩ resp compress a (B.pubOf b) nonce).2.buf
      compress b (B.pubOf a)).1 = .error .ErrUnexpectedEOF := by
  rw [writeLegacyMapResponse_none L B [] q resp compress a (B.pubOf b) nonce hq]
  have hu : uint32 (B.sealTo a (B.pubOf b) nonce q).length =
      (B.sealTo a (B.pubOf b) nonce q).length := Nat.mod_eq_of_lt hlt
  have h := readLVBytes_frame_gt (B.sealTo a (B.pubOf b) nonce q) [] (by rw [hu]; exact hgt)
  simp only [List.append_nil] at h
  simp only [readLegacyMapResponse, List.nil_append, h]

end LegacyProofs

/-- C8 as amended: with seal/open, zstd and JSON each round-tripping, for every
message that serializes, all keys `a` and `b`, every nonce and both compression
modes, if the sealed payload is at most 1,048,576 bytes then
`readLegacyMapResponse` with `b` and the public key of `a` on the bytes
`writeLegacyMapResponse` wrote with `a` and the public key of `b` returns the
message and no error. -/
theorem C8_legacy_roundtrip_within_ceiling {D R Priv Pub Nonce : Type} (L : Libs D R)
    (B : Box Priv Pub Nonce)
    (hjson : ∀ m j, L.jsonMarshal m = .ok j → L.jsonUnmarshal j = .ok m)
    (hzstd : ∀ d, L.zstdDecodeAll (L.zstdEncodeAll d) = .ok d)
    (hbox : ∀ a b nonce d,
      B.openFrom b (B.pubOf a) (B.sealTo a (B.pubOf b) nonce d) = some d)
    (m : MapResponse D R) (compress : Bool) (a b : Priv) (nonce : Nonce) (q : List Byte)
    (hq : marshalMapResponse L m compress = .ok q)
    (hlen : (B.sealTo a (B.pubOf b) nonce q).length ≤ 1048576) :
    (writeLegacyMapResponse L B ⟨[], none⟩ m compress a (B.pubOf b) nonce).1 = .ok () ∧
    readLegacyMapResponse L B
      (writeLegacyMapResponse L B ⟨[], none⟩ m compress a (B.pubOf b) nonce).2.buf
      compress b (B.pubOf a) = (.ok m, []) := by
  rw [writeLegacyMapResponse_none L B [] q m compress a (B.pubOf b) nonce hq]
  refine ⟨rfl, ?_⟩
  have h := readLVBytes_frame_append (B.sealTo a (B.pubOf b) nonce q) [] hlen
  simp only [List.append_nil] at h
  simp only [readLegacyMapResponse, List.nil_append, h, hbox,
    unmarshal_marshal L hjson hzstd hq]

/-- C8 at a two-byte message of the small instance, compressed. -/
theorem C8_legacy_roundtrip_within_ceiling_witness :
    (∀ m j, demoLibs.jsonMarshal m = .ok j → demoLibs.jsonUnmarshal j = .ok m) ∧
    (∀ d, demoLibs.zstdDecodeAll (demoLibs.zstdEncodeAll d) = .ok d) ∧
    (∀ a b nonce d,
      demoBox.openFrom b (demoBox.pubOf a) (demoBox.sealTo a (demoBox.pubOf b) nonce d) =
        some d) ∧
    marshalMapResponse demoLibs ⟨some 7, [5]⟩ true = .ok [0x28, 1, 7, 5] ∧
    (demoBox.sealTo 11 (demoBox.pubOf 22) 3 [0x28, 1, 7, 5]).length ≤ 1048576 ∧
    (writeLegacyMapResponse demoLibs demoBox ⟨[], none⟩ ⟨some 7, [5]⟩ true 11
      (demoBox.pubOf 22) 3).1 = .ok () ∧
    readLegacyMapResponse demoLibs demoBox
      (writeLegacyMapResponse demoLibs demoBox ⟨[], none⟩ ⟨some 7, [5]⟩ true 11
        (demoBox.pubOf 22) 3).2.buf true 22 (demoBox.pubOf 11) = (.ok ⟨some 7, [5]⟩, []) :=
  ⟨demoLibs_json, demoLibs_zstd, demoBox_open, by decide, by decide,
    C8_legacy_roundtrip_within_ceiling demoLibs demoBox demoLibs_json demoLibs_zstd
      demoBox_open ⟨some 7, [5]⟩ true 11 22 3 [0x28, 1, 7, 5] (by decide) (by decide)⟩

/-- In the small instance a message with 1,048,576 bytes of other fields is
written but not read back. -/
theorem demo_oversize (o : List Byte) (ho : o.length = 1048576) :
    marshalMapResponse demoLibs ⟨none, o⟩ false = .ok (0 :: o) ∧
    (readLegacyMapResponse demoLibs demoBox
      (writeLegacyMapResponse demoLibs demoBox ⟨[], none⟩ ⟨none, o⟩ false 11
        (demoBox.pubOf 22) 3).2.buf false 22 (demoBox.pubOf 11)).1 =
      .error .ErrUnexpectedEOF := by
  have hq : marshalMapResponse demoLibs ⟨none, o⟩ false = .ok (0 :: o) := rfl
  have hl : (demoBox.sealTo 11 (demoBox.pubOf 22) 3 (0 :: o)).length = 1048579 := by
    simp only [demoBox, List.length_cons, ho]
  refine ⟨hq, ?_⟩
  exact readLegacyMapResponse_oversize demoLibs demoBox _ ⟨none, o⟩ false 11 22 3 hq
    (by rw [hl]; decide) (by rw [hl]; decide)

/-- C8 fails as stated: in the small instance, where seal/open, zstd and JSON
each round-trip, the message `demoBigMsg` serializes, yet reading back what
`writeLegacyMapResponse` wrote for it returns `io.ErrUnexpectedEOF`, because the
sealed payload is longer than 1,048,576 bytes. -/
theorem C8_legacy_roundtrip_oversize :
    (∀ m j, demoLibs.jsonMarshal m = .ok j → demoLibs.jsonUnmarshal j = .ok m) ∧
    (∀ d, demoLibs.zstdDecodeAll (demoLibs.zstdEncodeAll d) = .ok d) ∧
    (∀ a b nonce d,
      demoBox.openFrom b (demoBox.pubOf a) (demoBox.sealTo a (demoBox.pubOf b) nonce d) =
        some d) ∧
    marshalMapResponse demoLibs demoBigMsg false = .ok (0 :: demoBigMsg.others) ∧
    (readLegacyMapResponse demoLibs demoBox
      (writeLegacyMapResponse demoLibs demoBox ⟨[], none⟩ demoBigMsg false 11
        (demoBox.pubOf 22) 3).2.buf false 22 (demoBox.pubOf 11)).1 =
      .error .ErrUnexpectedEOF :=
  ⟨demoLibs_json, demoLibs_zstd, demoBox_open,
    demo_oversize (List.replicate 1048576 0) (List.length_replicate _ _)⟩

/-! ## The identity store -/

/-- A successful `dumpLocked` writes the document over the start of the old
content. -/
theorem dumpLocked_ok {Pub Priv : Type} (K : KeyText Pub Priv) (F : FileLib)
    (s : state Pub Priv) (file : Option (List Byte)) :
    dumpLocked K F s file .ok =
      (.ok (), some (overwrite (file.getD []) (F.jsonEncode (toStateJson K s)))) := rfl

/-- Over an absent, empty or shorter file the result is the new content alone. -/
theorem overwrite_of_length_le (old new : List Byte) (h : old.length ≤ new.length) :
    overwrite old new = new := by
  simp [overwrite, List.drop_of_length_le h]

section StoreProofs

variable {Pub Priv : Type} [DecidableEq Pub] (K : KeyText Pub Priv) (F : FileLib)

theorem mapGet_filter_ne {V : Type} (m : GoMap Pub V) (p k : Pub) (h : k ≠ p) :
    mapGet (m.filter (fun kv => kv.1 ≠ p)) k = mapGet m k := by
  induction m with
  | nil => rfl
  | cons kv rest ih =>
    obtain ⟨k1, v⟩ := kv
    by_cases h1 : k1 = p
    · have hk : ¬ k1 = k := fun e => h (e ▸ h1)
      rw [List.filter_cons_of_neg (by simpa using h1)]
      simp only [mapGet, hk, if_false]
      exact ih
    · rw [List.filter_cons_of_pos (by simpa using h1)]
      simp only [mapGet, ih]

theorem mapGet_mapSet_self {V : Type} (m : GoMap Pub V) (k : Pub) (v : V) :
    mapGet (mapSet m k v) k = some v := by
  simp [mapSet, mapGet]

theorem mapGet_mapSet_ne {V : Type} (m : GoMap Pub V) (p k : Pub) (v : V) (h : k ≠ p) :
    mapGet (mapSet m p v) k = mapGet m k := by
  have hp : p ≠ k := fun e => h e.symm
  simp only [mapSet, mapGet, hp, if_false]
  exact mapGet_filter_ne m p k h

/-- A call for a peer that has a key returns it and changes nothing. -/
theorem lookupMitmKey_found (s : state Pub Priv) (file : Option (List Byte)) (pub : Pub)
    (fresh : Priv) (io : WriteOutcome) (v : Priv)
    (h : mapGet s.machinesMitmKeys pub = some v) :
    lookupMitmKey K F s file pub fresh io = ⟨.ok v, s, file, []⟩ := by
  simp [lookupMitmKey, h]

/-- A call never replaces the key of any peer. -/
theorem lookupMitmKey_keeps (s : state Pub Priv) (file : Option (List Byte)) (pub : Pub)
    (fresh : Priv) (io : WriteOutcome) (k : Pub) (v : Priv)
    (h : mapGet s.machinesMitmKeys k = some v) :
    mapGet (lookupMitmKey K F s file pub fresh io).s.machinesMitmKeys k = some v := by
  cases hp : mapGet s.machinesMitmKeys pub with
  | some w => rw [lookupMitmKey_found K F s file pub fresh io w hp]; exact h
  | none =>
    have hne : k ≠ pub := by
      intro e
      rw [e, hp] at h
      cases h
    have hs : (lookupMitmKey K F s file pub fresh io).s.machinesMitmKeys =
        mapSet s.machinesMitmKeys pub fresh := by
      simp only [lookupMitmKey, hp]
      split <;> rfl
    rw [hs, mapGet_mapSet_ne _ _ _ _ hne]
    exact h

/-- A key a call returns is the key the store holds for that peer afterwards. -/
theorem lookupMitmKey_ok_stored (s : state Pub Priv) (file : Option (List Byte)) (pub : Pub)
    (fresh : Priv) (io : WriteOutcome) (v : Priv)
    (h : (lookupMitmKey K F s file pub fresh io).res = .ok v) :
    mapGet (lookupMitmKey K F s file pub fresh io).s.machinesMitmKeys pub = some v := by
  cases hp : mapGet s.machinesMitmKeys pub with
  | some w =>
    rw [lookupMitmKey_found K F s file pub fresh io w hp] at h ⊢
    simp only [Except.ok.injEq] at h
    rw [← h]
    exact hp
  | none =>
    simp only [lookupMitmKey, hp] at h ⊢
    split at h
    · simp at h
    · rename_i hd
      simp only [hd, mapGet_mapSet_self, Option.getD_some, Except.ok.injEq] at h ⊢
      rw [h]

/-- The lines a call logs about peer `k`: none when `k` has a key, at most one
otherwise, and after one `k` has a key. -/
theorem lookupMitmKey_log (s : state Pub Priv) (file : Option (List Byte)) (pub : Pub)
    (fresh : Priv) (io : WriteOutcome) (k : Pub) :
    ((lookupMitmKey K F s file pub fresh io).log.filter
        (fun l => l = LogLine.newMachine k)) = [] ∨
    (((lookupMitmKey K F s file pub fresh io).log.filter
        (fun l => l = LogLine.newMachine k)).length = 1 ∧
      mapGet s.machinesMitmKeys k = none ∧
      ∃ v, mapGet (lookupMitmKey K F s file pub fresh io).s.machinesMitmKeys k = some v) := by
  cases hp : mapGet s.machinesMitmKeys pub with
  | some w =>
    rw [lookupMitmKey_found K F s file pub fresh io w hp]
    exact Or.inl rfl
  | none =>
    have hs : (lookupMitmKey K F s file pub fresh io).s.machinesMitmKeys =
        mapSet s.machinesMitmKeys pub fresh := by
      simp only [lookupMitmKey, hp]
      split <;> rfl
    have hl : (lookupMitmKey K F s file pub fresh io).log = [.newMachine pub] := by
      simp only [lookupMitmKey, hp]
      split <;> rfl
    rw [hs, hl]
    by_cases hk : pub = k
    · subst hk
      exact Or.inr ⟨by simp, hp, fresh, mapGet_mapSet_self _ _ _⟩
    · exact Or.inl (by simp [hk])

/-- While a peer has a key, no sequence of calls replaces it. -/
theorem lookups_keeps (cs : List (Call Pub Priv)) (s : state Pub Priv)
    (file : Option (List Byte)) (k : Pub) (v : Priv)
    (h : mapGet s.machinesMitmKeys k = some v) :
    mapGet (lookups K F s file cs).s.machinesMitmKeys k = some v := by
  induction cs generalizing s file with
  | nil => exact h
  | cons c cs ih =>
    simp only [lookups]
    exact ih _ _ (lookupMitmKey_keeps K F s file c.pub c.fresh c.io k v h)

/-- While a peer has a key, every call for it returns that key. -/
theorem lookups_found (cs : List (Call Pub Priv)) (s : state Pub Priv)
    (file : Option (List Byte)) (k : Pub) (v : Priv)
    (h : mapGet s.machinesMitmKeys k = some v) (j : Nat) (c : Call Pub Priv)
    (hc : cs[j]? = some c) (hk : c.pub = k) :
    (lookups K F s file cs).results[j]? = some (.ok v) := by
  induction cs generalizing s file j with
  | nil => simp at hc
  | cons c0 cs ih =>
    cases j with
    | zero =>
      simp only [List.getElem?_cons_zero, Option.some.injEq] at hc
      subst hc
      subst hk
      simp only [lookups, List.getElem?_cons_zero,
        lookupMitmKey_found K F s file c0.pub c0.fresh c0.io v h]
    | succ j =>
      simp only [List.getElem?_cons_succ] at hc
      simp only [lookups, List.getElem?_cons_succ]
      exact ih _ _ (lookupMitmKey_keeps K F s file c0.pub c0.fresh c0.io k v h) j hc

/-- While a peer has a key, no call generates one for it. -/
theorem lookups_log_found (cs : List (Call Pub Priv)) (s : state Pub Priv)
    (file : Option (List Byte)) (k : Pub) (v : Priv)
    (h : mapGet s.machinesMitmKeys k = some v) :
    (lookups K F s file cs).log.filter (fun l => l = LogLine.newMachine k) = [] := by
  induction cs generalizing s file with
  | nil => rfl
  | cons c cs ih =>
    simp only [lookups, List.filter_append]
    rw [ih _ _ (lookupMitmKey_keeps K F s file c.pub c.fresh c.io k v h)]
    rcases lookupMitmKey_log K F s file c.pub c.fresh c.io k with h1 | ⟨_, h2, _⟩
    · rw [h1]; rfl
    · rw [h] at h2; cases h2

/-- No sequence of calls generates more than one key for a peer. -/
theorem lookups_log_le_one (cs : List (Call Pub Priv)) (s : state Pub Priv)
    (file : Option (List Byte)) (k : Pub) :
    ((lookups K F s file cs).log.filter (fun l => l = LogLine.newMachine k)).length ≤ 1 := by
  induction cs generalizing s file with
  | nil => simp [lookups]
  | cons c cs ih =>
    simp only [lookups, List.filter_append, List.length_append]
    rcases lookupMitmKey_log K F s file c.pub c.fresh c.io k with h1 | ⟨h1, _, v, h3⟩
    · rw [h1]
      simpa using ih _ _
    · rw [h1, lookups_log_found K F cs _ _ k v h3]
      simp

/-- Two successful calls for the same peer, the first before the second, return
the same key. -/
theorem lookups_same_lt (cs : List (Call Pub Priv)) (s : state Pub Priv)
    (file : Option (List Byte)) (k : Pub) (i j : Nat) (ci cj : Call Pub Priv) (v w : Priv)
    (hij : i < j) (hci : cs[i]? = some ci) (hcj : cs[j]? = some cj)
    (hki : ci.pub = k) (hkj : cj.pub = k)
    (hi : (lookups K F s file cs).results[i]? = some (.ok v))
    (hj : (lookups K F s file cs).results[j]? = some (.ok w)) : v = w := by
  induction cs generalizing s file i j with
  | nil => simp at hci
  | cons c0 cs ih =>
    cases j with
    | zero => omega
    | succ j =>
      simp only [List.getElem?_cons_succ] at hcj
      simp only [lookups, List.getElem?_cons_succ] at hj
      cases i with
      | zero =>
        simp only [List.getElem?_cons_zero, Option.some.injEq] at hci
        subst hci
        subst hki
        simp only [lookups, List.getElem?_cons_zero, Option.some.injEq] at hi
        have hst := lookupMitmKey_ok_stored K F s file c0.pub c0.fresh c0.io v hi
        have := lookups_found K F cs (lookupMitmKey K F s file c0.pub c0.fresh c0.io).s
          (lookupMitmKey K F s file c0.pub c0.fresh c0.io).file c0.pub v hst j cj hcj hkj
        rw [this] at hj
        simpa using hj
      | succ i =>
        simp only [List.getElem?_cons_succ] at hci
        simp only [lookups, List.getElem?_cons_succ] at hi
        exact ih _ _ i j (by omega) hci hcj hi hj

end StoreProofs

/-- C4: for every store, every sequence of calls of `lookupMitmKey` (with any
peers, any generated keys and any write failures) and every peer `k`: any two
calls for `k` that return without error return the same key; a key the store
holds for `k` is still the one it holds after the sequence; and the sequence
generates at most one key for `k`. -/
theorem C4_lookupMitmKey_idempotent {Pub Priv : Type} [DecidableEq Pub]
    (K : KeyText Pub Priv) (F : FileLib) (s : state Pub Priv) (file : Option (List Byte))
    (cs : List (Call Pub Priv)) (k : Pub) :
    (∀ (i j : Nat) (ci cj : Call Pub Priv) (v w : Priv),
      cs[i]? = some ci → cs[j]? = some cj → ci.pub = k → cj.pub = k →
      (lookups K F s file cs).results[i]? = some (.ok v) →
      (lookups K F s file cs).results[j]? = some (.ok w) → v = w) ∧
    (∀ v, mapGet s.machinesMitmKeys k = some v →
      mapGet (lookups K F s file cs).s.machinesMitmKeys k = some v) ∧
    ((lookups K F s file cs).log.filter (fun l => l = LogLine.newMachine k)).length ≤ 1 := by
  refine ⟨?_, fun v h => lookups_keeps K F cs s file k v h, lookups_log_le_one K F cs s file k⟩
  intro i j ci cj v w hci hcj hki hkj hi hj
  rcases Nat.lt_trichotomy i j with h | h | h
  · exact lookups_same_lt K F cs s file k i j ci cj v w h hci hcj hki hkj hi hj
  · subst h
    rw [hi] at hj
    simpa using hj
  · exact (lookups_same_lt K F cs s file k j i cj ci w v h hcj hci hkj hki hj hi).symm

/-- C4 on two calls for peer 7 around a call for peer 8: the first and the third
return the same key, although a different key would have been generated. -/
theorem C4_lookupMitmKey_idempotent_witness :
    (lookups demoKeyText demoFileLib demoStore (some demoFile)
      [⟨7, 9, .ok⟩, ⟨8, 10, .ok⟩, ⟨7, 11, .ok⟩]).results =
      [.ok 9, .ok 10, .ok 9] ∧ (9 : Byte) = 9 :=
  ⟨by decide,
    (C4_lookupMitmKey_idempotent demoKeyText demoFileLib demoStore (some demoFile)
      [⟨7, 9, .ok⟩, ⟨8, 10, .ok⟩, ⟨7, 11, .ok⟩] 7).1 0 2 ⟨7, 9, .ok⟩ ⟨7, 11, .ok⟩ 9 9
      rfl rfl rfl rfl (by decide) (by decide)⟩

/-- C5: starting with no state file, `newState` succeeds; a first
`lookupMitmKey` for peer 7 generates key 9 and fails because the state file
cannot be opened; a second `lookupMitmKey` for peer 7 returns key 9 without
error, while the state file is still the one `newState` wrote, from which a
fresh `newState` loads no key for peer 7. -/
theorem C5_lookupMitmKey_returns_unrecorded_key :
    (newState demoKeyText demoFileLib none 1 2 .ok false).2 = some demoFile ∧
    (lookups demoKeyText demoFileLib demoStore (some demoFile)
      [⟨7, 9, .openFails⟩, ⟨7, 10, .ok⟩]).results = [.error openErr, .ok 9] ∧
    (lookups demoKeyText demoFileLib demoStore (some demoFile)
      [⟨7, 9, .openFails⟩, ⟨7, 10, .ok⟩]).file = some demoFile ∧
    (newState demoKeyText demoFileLib (some demoFile) 3 4 .ok false).1.map
      (fun s => mapGet s.machinesMitmKeys 7) = .ok none := by
  decide

set_option maxRecDepth 100000 in
/-- The path to the missing truncation in the small instance: a state file
that holds the document of `demoStore` followed by 300 newlines is loaded by
`newState` as `demoStore`, and the `lookupMitmKey` that provisions peer 7
succeeds and leaves the new document followed by old newlines. -/
theorem demo_lookup_keeps_old_tail :
    (newState demoKeyText demoFileLib (some (demoFile ++ List.replicate 300 0x0a)) 3 4 .ok
      false).1.map (fun s => (s.legacyKey, s.noiseKey, s.machinesMitmKeys)) =
      .ok (1, 2, []) ∧
    (lookupMitmKey demoKeyText demoFileLib demoStore
      (some (demoFile ++ List.replicate 300 0x0a)) 7 9 .ok).res = .ok 9 ∧
    (lookupMitmKey demoKeyText demoFileLib demoStore
      (some (demoFile ++ List.replicate 300 0x0a)) 7 9 .ok).file =
      some (demoEncode (toStateJson demoKeyText ⟨1, 2, [(7, 9)]⟩) ++
        List.replicate 294 0x0a) := by
  decide

/-- C9: for every store, every encoder and every old content of the state file
that is longer than the new document, `dumpLocked` succeeds and leaves a file
that is the new document followed by the bytes of the old content beyond the
length of the new document, at least one of them: not the new document alone. -/
theorem C9_dumpLocked_keeps_old_tail {Pub Priv : Type} (K : KeyText Pub Priv) (F : FileLib)
    (s : state Pub Priv) (old : List Byte)
    (h : (F.jsonEncode (toStateJson K s)).length < old.length) :
    (dumpLocked K F s (some old) .ok).1 = .ok () ∧
    (dumpLocked K F s (some old) .ok).2 =
      some (F.jsonEncode (toStateJson K s) ++
        old.drop (F.jsonEncode (toStateJson K s)).length) ∧
    old.drop (F.jsonEncode (toStateJson K s)).length ≠ [] ∧
    (dumpLocked K F s (some old) .ok).2 ≠ some (F.jsonEncode (toStateJson K s)) := by
  have hne : old.drop (F.jsonEncode (toStateJson K s)).length ≠ [] := by
    intro e
    have hl := congrArg List.length e
    simp only [List.length_drop, List.length_nil] at hl
    omega
  refine ⟨rfl, rfl, hne, ?_⟩
  rw [dumpLocked_ok]
  simp only [overwrite, Option.getD_some, ne_eq, Option.some.injEq, List.append_right_eq_self]
  exact hne

/-- C9 in the small instance: the store with peer 7 provisioned is dumped over
a file that holds the previous document followed by 300 newlines. -/
theorem C9_dumpLocked_keeps_old_tail_witness :
    (demoFileLib.jsonEncode (toStateJson demoKeyText ⟨1, 2, [(7, 9)]⟩)).length <
      (demoFile ++ List.replicate 300 0x0a).length ∧
    (dumpLocked demoKeyText demoFileLib ⟨1, 2, [(7, 9)]⟩
      (some (demoFile ++ List.replicate 300 0x0a)) .ok).1 = .ok () ∧
    (dumpLocked demoKeyText demoFileLib ⟨1, 2, [(7, 9)]⟩
      (some (demoFile ++ List.replicate 300 0x0a)) .ok).2 =
      some (demoFileLib.jsonEncode (toStateJson demoKeyText ⟨1, 2, [(7, 9)]⟩) ++
        (demoFile ++ List.replicate 300 0x0a).drop
          (demoFileLib.jsonEncode (toStateJson demoKeyText ⟨1, 2, [(7, 9)]⟩)).length) ∧
    (demoFile ++ List.replicate 300 0x0a).drop
      (demoFileLib.jsonEncode (toStateJson demoKeyText ⟨1, 2, [(7, 9)]⟩)).length ≠ [] ∧
    (dumpLocked demoKeyText demoFileLib ⟨1, 2, [(7, 9)]⟩
      (some (demoFile ++ List.replicate 300 0x0a)) .ok).2 ≠
      some (demoFileLib.jsonEncode (toStateJson demoKeyText ⟨1, 2, [(7, 9)]⟩)) :=
  ⟨by rw [List.length_append, List.length_replicate]; decide,
    C9_dumpLocked_keeps_old_tail demoKeyText demoFileLib ⟨1, 2, [(7, 9)]⟩
      (demoFile ++ List.replicate 300 0x0a)
      (by rw [List.length_append, List.length_replicate]; decide)⟩

/-- C10: when there is no state file and the file system accepts the write,
`newState` returns a store with the two generated keys and an empty mapping and
leaves a file holding exactly their document with an empty mapping; if that
document and the two key texts decode to what was encoded, a second `newState`
on that file succeeds, leaves the file as it is, and returns keys with the same
text and an empty mapping. -/
theorem C10_newState_load_roundtrip {Pub Priv : Type} [DecidableEq Pub]
    (K : KeyText Pub Priv) (F : FileLib) (fresh1 fresh2 g1 g2 : Priv) (openFails : Bool)
    (io2 : WriteOutcome)
    (hF : F.jsonDecode
        (F.jsonEncode ⟨K.privMarshalText fresh1, K.privMarshalText fresh2, []⟩) =
      .ok ⟨K.privMarshalText fresh1, K.privMarshalText fresh2, []⟩)
    (h1 : K.privUnmarshalText (K.privMarshalText fresh1) = .ok fresh1)
    (h2 : K.privUnmarshalText (K.privMarshalText fresh2) = .ok fresh2) :
    ∃ (s1 s2 : state Pub Priv) (content : List Byte),
      newState K F none fresh1 fresh2 .ok openFails = (.ok s1, some content) ∧
      content = F.jsonEncode ⟨K.privMarshalText fresh1, K.privMarshalText fresh2, []⟩ ∧
      s1.legacyKey = fresh1 ∧ s1.noiseKey = fresh2 ∧ s1.machinesMitmKeys = [] ∧
      newState K F (some content) g1 g2 io2 false = (.ok s2, some content) ∧
      K.privMarshalText s2.legacyKey = K.privMarshalText s1.legacyKey ∧
      K.privMarshalText s2.noiseKey = K.privMarshalText s1.noiseKey ∧
      s2.machinesMitmKeys = [] := by
  refine ⟨⟨fresh1, fresh2, []⟩, ⟨fresh1, fresh2, []⟩, _, ?_, rfl, rfl, rfl, rfl, ?_, rfl, rfl, rfl⟩
  · simp [newState, dumpLocked, toStateJson, overwrite]
  · simp [newState, hF, h1, h2, loadKeys]

/-- C10 in the small instance, with the keys 1 and 2. -/
theorem C10_newState_load_roundtrip_witness :
    demoFileLib.jsonDecode (demoFileLib.jsonEncode
        ⟨demoKeyText.privMarshalText 1, demoKeyText.privMarshalText 2, []⟩) =
      .ok ⟨demoKeyText.privMarshalText 1, demoKeyText.privMarshalText 2, []⟩ ∧
    demoKeyText.privUnmarshalText (demoKeyText.privMarshalText 1) = .ok 1 ∧
    demoKeyText.privUnmarshalText (demoKeyText.privMarshalText 2) = .ok 2 ∧
    ∃ (s1 s2 : state Byte Byte) (content : List Byte),
      newState demoKeyText demoFileLib none 1 2 .ok false = (.ok s1, some content) ∧
      content = demoFileLib.jsonEncode
        ⟨demoKeyText.privMarshalText 1, demoKeyText.privMarshalText 2, []⟩ ∧
      s1.legacyKey = 1 ∧ s1.noiseKey = 2 ∧ s1.machinesMitmKeys = [] ∧
      newState demoKeyText demoFileLib (some content) 3 4 .ok false = (.ok s2, some content) ∧
      demoKeyText.privMarshalText s2.legacyKey = demoKeyText.privMarshalText s1.legacyKey ∧
      demoKeyText.privMarshalText s2.noiseKey = demoKeyText.privMarshalText s1.noiseKey ∧
      s2.machinesMitmKeys = [] :=
  ⟨by decide, by decide, by decide,
    C10_newState_load_roundtrip demoKeyText demoFileLib 1 2 3 4 false .ok (by decide)
      (by decide) (by decide)⟩

end TsControlMitm
